import Mathlib

/-!
Verification development for the PR-Reviewer backend.

The definitions below are a shallow embedding of the Python sources:
  backend/services/diff_parser.py   (DiffParser)
  backend/services/queue.py         (Queue)
  backend/workers/orchestrator.py   (RateLimiter, Orchestrator.process_task)
  backend/workers/agents/*.py       (Scout, Guardian, Architect, Stylist, Synthesizer)

Python strings are modelled as Lean String (a list of unicode code points,
matching Python len and indexing); Python lists as Lean List; Python dicts
produced by the parser as structures whose optional keys become fields with
the falsy default; machine integers are Nat or Int (Python ints never
overflow); wall-clock float time is modelled as Rat; fallible operations
return Option or Except.
-/

/-! Character-list string utilities shared by the models.  Python
str.startswith, str.split, separator.join, substring search and ASCII
lowercasing are defined from first principles so that every proof about
them is self-contained. -/

/-- Boolean prefix test on character lists; models Python str.startswith. -/
def isPrefixB : List Char → List Char → Bool
  | [], _ => true
  | _ :: _, [] => false
  | a :: as_, b :: bs => if a = b then isPrefixB as_ bs else false

/-- Boolean suffix test on character lists. -/
def isSuffixB (p l : List Char) : Bool := isPrefixB p.reverse l.reverse

/-- Boolean substring test on character lists; models Python re search of a
plain literal pattern. -/
def containsB (pat : List Char) : List Char → Bool
  | [] => isPrefixB pat []
  | x :: xs => isPrefixB pat (x :: xs) || containsB pat xs

/-- startsWithS p s models the Python expression s.startswith(p). -/
def startsWithS (p s : String) : Bool := isPrefixB p.data s.data

/-- containsS s sub is true when sub occurs as a contiguous substring of s. -/
def containsS (s sub : String) : Bool := containsB sub.data s.data

/-- Split a character list at every occurrence of the separator, keeping
empty segments; models Python str.split with an explicit separator. -/
def splitCh (c : Char) : List Char → List (List Char)
  | [] => [[]]
  | x :: xs =>
      if x = c then [] :: splitCh c xs
      else
        match splitCh c xs with
        | [] => [[x]]
        | h :: t => (x :: h) :: t

/-- Join segments with a separator; models Python sep.join. -/
def joinCh (c : Char) : List (List Char) → List Char
  | [] => []
  | [l] => l
  | l :: ls => l ++ c :: joinCh c ls

/-- The line list of a string, splitting on the newline character, exactly
as the Python sources do with text.split applied to a newline. -/
def splitNl (s : String) : List String := (splitCh '\n' s.data).map String.mk

/-- Newline join of a list of lines, as the Python sources do with the
newline separator and str.join. -/
def joinNl (ls : List String) : String := String.mk (joinCh '\n' (ls.map String.data))

/-- ASCII lowercasing of a string; models the effect of the IGNORECASE flag
on the all-ASCII noise patterns. -/
def lowerS (s : String) : String := String.mk (s.data.map Char.toLower)

/-! Model of backend/services/diff_parser.py. -/

namespace DiffParser

/-- One parsed file of a unified diff, as built by DiffParser.parse_diff.
The Python code stores a dict; the keys is_binary and is_deleted are only
inserted when set, and readers use dict.get whose missing-key default is
falsy, so they are modelled as Bool fields defaulting to false. -/
structure DiffFile where
  old_path : String
  new_path : String
  content : String
  added_lines : Nat
  removed_lines : Nat
  is_binary : Bool
  is_deleted : Bool
deriving DecidableEq, Repr

/-- Drop an expected literal prefix, failing when absent; building block of
the anchored regular-expression matches in parse_diff. -/
def dropPrefixB (p l : List Char) : Option (List Char) :=
  if isPrefixB p l then some (l.drop p.length) else none

/-- Numeric value of a digit run, as Python int applied to the matched
group. -/
def digitsToNat (ds : List Char) : Nat := ds.foldl (fun n c => 10 * n + (c.toNat - 48)) 0

/-- Match one count group of the hunk-header pattern: one or more digits,
optionally followed by a comma and more digits.  The count recorded by the
code is the post-comma group when present and defaults to 1 otherwise,
mirroring the expression int(match.group(2) or 1).  When a comma is not
followed by a digit the lazy optional group matches empty and the comma is
left for the next literal of the pattern to reject, exactly as the regular
expression engine behaves. -/
def matchHunkCount (l : List Char) : Option (Nat × List Char) :=
  let ds := l.takeWhile Char.isDigit
  let rest := l.dropWhile Char.isDigit
  if ds.isEmpty then none
  else
    match rest with
    | ',' :: r2 =>
        let ds2 := r2.takeWhile Char.isDigit
        if ds2.isEmpty then some (1, rest)
        else some (digitsToNat ds2, r2.dropWhile Char.isDigit)
    | _ => some (1, rest)

/-- Anchored match of the hunk-header pattern used in parse_diff, returning
the (removed, added) counts.  The pattern is the literal at-at dash, a
count group, space plus, a count group, space at-at, with arbitrary text
allowed afterwards since re.match only anchors the start. -/
def matchHunk (l : List Char) : Option (Nat × Nat) :=
  match dropPrefixB "@@ -".data l with
  | none => none
  | some r1 =>
    match matchHunkCount r1 with
    | none => none
    | some (removed, r2) =>
      match dropPrefixB " +".data r2 with
      | none => none
      | some r3 =>
        match matchHunkCount r3 with
        | none => none
        | some (added, r4) =>
          if isPrefixB " @@".data r4 then some (removed, added) else none

/-- Lazy search for the path separator of the file-header pattern: the
first group takes the shortest nonempty run of characters followed by the
literal space b slash with a nonempty remainder, and the second group,
being lazy but end-anchored, takes that whole remainder. -/
def findPathSplit (acc : List Char) : List Char → Option (List Char × List Char)
  | [] => none
  | x :: xs =>
      if isPrefixB " b/".data xs && !(xs.drop 3).isEmpty then
        some (acc ++ [x], xs.drop 3)
      else findPathSplit (acc ++ [x]) xs

/-- Anchored match of the file-header pattern of parse_diff, extracting the
old and new path from a line of the form diff dash-dash-git a slash old
space b slash new. -/
def matchDiffGit (l : List Char) : Option (String × String) :=
  match dropPrefixB "diff --git a/".data l with
  | none => none
  | some r =>
    match findPathSplit [] r with
    | none => none
    | some (op, np) => some (String.mk op, String.mk np)

/-- The in-progress file record of the parse loop.  The Python loop keeps a
mutable dict together with the accumulated current_lines list.  When a line
starting with the file-header literal fails the path match, the code has
already appended the current dict to the output list yet keeps mutating the
very same dict, so the object can occur in the output several times; the
copies field counts how many such aliased appends have happened, and
materialisation emits that many extra copies of the final value. -/
structure CurFile where
  old_path : String
  new_path : String
  added_lines : Nat
  removed_lines : Nat
  is_binary : Bool
  is_deleted : Bool
  lines : List String
  copies : Nat
deriving DecidableEq, Repr

/-- Final value of the mutable dict of the parse loop: the content is the
newline join of the accumulated lines, assigned at flush time. -/
def CurFile.toDiffFile (c : CurFile) : DiffFile :=
  { old_path := c.old_path
    new_path := c.new_path
    content := joinNl c.lines
    added_lines := c.added_lines
    removed_lines := c.removed_lines
    is_binary := c.is_binary
    is_deleted := c.is_deleted }

/-- Fresh file record created when a file-header line matches: zero counts,
no flags, and current_lines reset to just the header line. -/
def initCur (op np : String) (line : String) : CurFile :=
  { old_path := op, new_path := np, added_lines := 0, removed_lines := 0
    is_binary := false, is_deleted := false, lines := [line], copies := 0 }

/-- State of the parse loop: finished files plus the optional current file. -/
structure ParseState where
  files : List DiffFile
  current : Option CurFile
deriving DecidableEq, Repr

/-- Emit the current file record, including the aliased extra copies. -/
def flushCur (files : List DiffFile) (cur : CurFile) : List DiffFile :=
  files ++ List.replicate (cur.copies + 1) cur.toDiffFile

/-- One iteration of the line loop of DiffParser.parse_diff, with the same
branch order as the Python code: file header, index line, binary marker,
new-file marker, deleted-file marker, hunk header, and finally content
lines where literal plus and minus lines are counted with the triple plus
and triple minus markers excluded. -/
def parseStep (st : ParseState) (line : String) : ParseState :=
  if startsWithS "diff --git" line then
    match st.current, matchDiffGit line.data with
    | some cur, some (op, np) =>
        { files := flushCur st.files cur, current := some (initCur op np line) }
    | some cur, none =>
        { st with current := some { cur with copies := cur.copies + 1 } }
    | none, some (op, np) => { st with current := some (initCur op np line) }
    | none, none => st
  else if startsWithS "index " line then
    match st.current with
    | some cur => { st with current := some { cur with lines := cur.lines ++ [line] } }
    | none => st
  else if startsWithS "Binary files" line then
    match st.current with
    | some cur =>
        { st with current := some { cur with is_binary := true, lines := cur.lines ++ [line] } }
    | none => st
  else if startsWithS "new file mode" line then
    match st.current with
    | some cur => { st with current := some { cur with lines := cur.lines ++ [line] } }
    | none => st
  else if startsWithS "deleted file mode" line then
    match st.current with
    | some cur =>
        { st with current := some { cur with is_deleted := true, lines := cur.lines ++ [line] } }
    | none => st
  else if startsWithS "@@" line then
    match st.current with
    | some cur =>
      match matchHunk line.data with
      | some (removed, added) =>
          { st with current := some { cur with
              lines := cur.lines ++ [line]
              removed_lines := cur.removed_lines + removed
              added_lines := cur.added_lines + added } }
      | none => { st with current := some { cur with lines := cur.lines ++ [line] } }
    | none => st
  else
    match st.current with
    | some cur =>
      if startsWithS "+" line && !startsWithS "+++" line then
        { st with current := some { cur with
            lines := cur.lines ++ [line], added_lines := cur.added_lines + 1 } }
      else if startsWithS "-" line && !startsWithS "---" line then
        { st with current := some { cur with
            lines := cur.lines ++ [line], removed_lines := cur.removed_lines + 1 } }
      else { st with current := some { cur with lines := cur.lines ++ [line] } }
    | none => st

/-- DiffParser.parse_diff: empty input yields the empty list, otherwise the
input is split into lines, folded through the line loop, and the last
current file is flushed. -/
def parse_diff (diff_text : String) : List DiffFile :=
  if diff_text = "" then []
  else
    let st := (splitNl diff_text).foldl parseStep { files := [], current := none }
    match st.current with
    | some cur => flushCur st.files cur
    | none => st.files

/-- A literal added content line: starts with plus but not triple plus. -/
def isLiteralAdded (l : String) : Bool := startsWithS "+" l && !startsWithS "+++" l

/-- A literal removed content line: starts with minus but not triple minus. -/
def isLiteralRemoved (l : String) : Bool := startsWithS "-" l && !startsWithS "---" l

/-- Added count contributed by a line when re-scanned as a hunk header. -/
def hunkAddContrib (l : String) : Nat :=
  if startsWithS "@@" l then ((matchHunk l.data).map Prod.snd).getD 0 else 0

/-- Removed count contributed by a line when re-scanned as a hunk header. -/
def hunkRemoveContrib (l : String) : Nat :=
  if startsWithS "@@" l then ((matchHunk l.data).map Prod.fst).getD 0 else 0

/-- Independent re-scan over a list of lines: literal added lines. -/
def literalAddedL (ls : List String) : Nat := (ls.filter isLiteralAdded).length

/-- Independent re-scan over a list of lines: literal removed lines. -/
def literalRemovedL (ls : List String) : Nat := (ls.filter isLiteralRemoved).length

/-- Independent re-scan over a list of lines: hunk-header added counts. -/
def hunkAddedL (ls : List String) : Nat := (ls.map hunkAddContrib).sum

/-- Independent re-scan over a list of lines: hunk-header removed counts. -/
def hunkRemovedL (ls : List String) : Nat := (ls.map hunkRemoveContrib).sum

/-- Count of literal added lines of a reconstructed content string. -/
def literalAdded (s : String) : Nat := literalAddedL (splitNl s)

/-- Count of literal removed lines of a reconstructed content string. -/
def literalRemoved (s : String) : Nat := literalRemovedL (splitNl s)

/-- Total added count of the hunk headers of a reconstructed content string. -/
def hunkAdded (s : String) : Nat := hunkAddedL (splitNl s)

/-- Total removed count of the hunk headers of a reconstructed content string. -/
def hunkRemoved (s : String) : Nat := hunkRemovedL (splitNl s)

/-- DiffParser.is_noise_file: the fixed case-insensitive denylist, spelled
out pattern by pattern.  Dollar-anchored patterns are suffix tests, the
rest are substring tests; note the woff pattern has no anchor and is a
plain substring test in the source. -/
def is_noise_file (filepath : String) : Bool :=
  let d := (lowerS filepath).data
  isSuffixB ".lock".data d ||
  isSuffixB "package-lock.json".data d ||
  isSuffixB "yarn.lock".data d ||
  isSuffixB "pnpm-lock.yaml".data d ||
  (isSuffixB ".min.js".data d || isSuffixB ".min.css".data d) ||
  containsB "node_modules/".data d ||
  containsB ".git/".data d ||
  isSuffixB ".ds_store".data d ||
  isSuffixB ".log".data d ||
  containsB "dist/".data d ||
  containsB "build/".data d ||
  isSuffixB ".pyc".data d ||
  containsB "__pycache__/".data d ||
  isSuffixB ".png".data d ||
  isSuffixB ".jpg".data d ||
  isSuffixB ".jpeg".data d ||
  isSuffixB ".gif".data d ||
  isSuffixB ".svg".data d ||
  isSuffixB ".ico".data d ||
  containsB ".woff".data d ||
  isSuffixB ".woff2".data d ||
  isSuffixB ".ttf".data d ||
  isSuffixB ".eot".data d

/-- The effective path of a file record: the new path unless it is falsy,
else the old path, as in the Python expression
file_info.get(new) or file_info.get(old, empty). -/
def effectivePath (f : DiffFile) : String :=
  if f.new_path ≠ "" then f.new_path else f.old_path

/-- DiffParser.filter_noise: keep the records whose effective path is not
noise, in order. -/
def filter_noise (files : List DiffFile) : List DiffFile :=
  files.filter (fun f => !is_noise_file (effectivePath f))

/-- Loop of DiffParser.chunk_large_file over the line list, carrying the
current chunk and its running size, where each line accounts for its length
plus one for the newline. -/
def chunkLoop (max_size : Nat) : List String → List String → Nat → List String
  | [], cur, _ => if cur.isEmpty then [] else [joinNl cur]
  | l :: ls, cur, size =>
      let lsize := l.length + 1
      if size + lsize > max_size && !cur.isEmpty then
        joinNl cur :: chunkLoop max_size ls [l] lsize
      else chunkLoop max_size ls (cur ++ [l]) (size + lsize)

/-- DiffParser.chunk_large_file: content at most max_size is returned as a
single chunk, otherwise the line list is re-grouped into newline-joined
chunks by the loop above. -/
def chunk_large_file (file_content : String) (max_size : Nat) : List String :=
  if file_content.length ≤ max_size then [file_content]
  else chunkLoop max_size (splitNl file_content) [] 0

/-- Status word of one line of DiffParser.get_file_summary. -/
def statusOf (f : DiffFile) : String :=
  if f.is_deleted then "deleted"
  else if f.is_binary then "binary"
  else if f.old_path = "" then "new"
  else "modified"

/-- One line of DiffParser.get_file_summary. -/
def summaryLine (f : DiffFile) : String :=
  statusOf f ++ ": " ++ effectivePath f ++ " (+" ++ toString f.added_lines ++
    "/-" ++ toString f.removed_lines ++ ")"

/-- DiffParser.get_file_summary: one status line per file, newline joined. -/
def get_file_summary (files : List DiffFile) : String :=
  joinNl (files.map summaryLine)

end DiffParser

/-! Model of the RateLimiter class of backend/workers/orchestrator.py.
The asyncio lock makes every refill-then-decrement atomic, so the shared
state is modelled by the sequential semantics of acquire; wall-clock time
is an arbitrary rational passed in at each call. -/

/-- Token-bucket state: configured rate (the capacity), period, available
tokens, and the time of the last refill. -/
structure RateLimiter where
  rate : Nat
  per : Nat
  tokens : Nat
  last_refill : ℚ
deriving DecidableEq

/-- Python int applied to a rational: truncation toward zero. -/
def truncQ (q : ℚ) : Int := q.num.tdiv (q.den : Int)

/-- The refill phase of RateLimiter.acquire: add the truncated product of
elapsed time and rate over period, clamping to the capacity, and move the
refill clock, but only when at least one token is due. -/
def RateLimiter.refill (st : RateLimiter) (now : ℚ) : RateLimiter :=
  let elapsed := now - st.last_refill
  let tokens_to_add := truncQ (elapsed * (st.rate : ℚ) / (st.per : ℚ))
  if 0 < tokens_to_add then
    { st with tokens := min st.rate (st.tokens + tokens_to_add.toNat), last_refill := now }
  else st

/-- RateLimiter.acquire: refill, then succeed and decrement exactly when a
token is available, else fail leaving the state unchanged. -/
def RateLimiter.acquire (st : RateLimiter) (now : ℚ) : Bool × RateLimiter :=
  let st1 := st.refill now
  if 0 < st1.tokens then (true, { st1 with tokens := st1.tokens - 1 })
  else (false, st1)

/-- States reached by a sequence of acquire calls at the given times. -/
def RateLimiter.runAcquires (st : RateLimiter) : List ℚ → List RateLimiter
  | [] => []
  | t :: ts =>
      let st1 := (st.acquire t).2
      st1 :: st1.runAcquires ts

/-! Model of the task data of backend/models/pr.py, restricted to the
fields the queue and retry policy read. -/

/-- The part of PRMetadata the orchestrator failure path uses. -/
structure PRMetadata where
  pr_id : Nat
  repository : String
deriving DecidableEq, Repr

/-- PRTask: metadata plus the mutable retry counter.  The queued_at
timestamp plays no role in any claim and is omitted. -/
structure PRTask where
  pr_metadata : PRMetadata
  retry_count : Nat
deriving DecidableEq, Repr

/-- One dead-letter record, as written by Queue.enqueue_dlq: the task, the
error text, and the failure timestamp. -/
structure DlqEntry where
  task : PRTask
  error : String
  failed_at : Nat
deriving DecidableEq, Repr

/-! Model of backend/services/queue.py.  The Redis list is FIFO: enqueue
pushes on one end and dequeue blocks popping from the other; the model
appends at the list tail and removes at the head. -/

namespace Queue

/-- Durable queue state seen by the worker: primary FIFO of tasks and the
dead-letter list. -/
structure WorkerState where
  queue : List PRTask
  dlq : List DlqEntry
deriving DecidableEq, Repr

/-- Queue.enqueue: append the task at the tail of the primary queue. -/
def enqueue (st : WorkerState) (t : PRTask) : WorkerState :=
  { st with queue := st.queue ++ [t] }

/-- Queue.enqueue_dlq: append task, error text and timestamp to the
dead-letter list. -/
def enqueue_dlq (st : WorkerState) (t : PRTask) (err : String) (now : Nat) : WorkerState :=
  { st with dlq := st.dlq ++ [{ task := t, error := err, failed_at := now }] }

/-- Raw queue state for dequeue: the primary list still holds undecoded
payloads, and the dead-letter list rides along untouched. -/
structure RawQueueState (α : Type) where
  main : List α
  dlq : List String

/-- Queue.dequeue.  The blocking pop removes the head entry before any
decoding happens; json decoding plus task validation is the decode
argument, and every decode failure is caught and turned into the same
empty answer a pop timeout gives, with the popped entry gone for good. -/
def dequeue {α : Type} (decode : α → Option PRTask) (st : RawQueueState α) :
    Option PRTask × RawQueueState α :=
  match st.main with
  | [] => (none, st)
  | p :: rest =>
      let st1 : RawQueueState α := { st with main := rest }
      match decode p with
      | some task => (some task, st1)
      | none => (none, st1)

end Queue

/-! Model of the failure path of Orchestrator.process_task in
backend/workers/orchestrator.py. -/

namespace Orchestrator

/-- Result of the failure handler: the new queue state plus the backoff
delay slept before the re-enqueue (zero on dead-letter). -/
structure FailHandling where
  state : Queue.WorkerState
  delay : Nat
deriving DecidableEq, Repr

/-- The except branch of process_task after the status update: at or above
the retry ceiling the task goes to the dead-letter list; below it the retry
counter is incremented, the code sleeps retry_delay times the new counter,
and the task is re-enqueued. -/
def handle_task_failure (max_retries retry_delay : Nat) (task : PRTask) (err : String)
    (now : Nat) (st : Queue.WorkerState) : FailHandling :=
  if max_retries ≤ task.retry_count then
    { state := Queue.enqueue_dlq st task err now, delay := 0 }
  else
    let t := { task with retry_count := task.retry_count + 1 }
    { state := Queue.enqueue st t, delay := retry_delay * t.retry_count }

/-- Externally visible effects of one process_task execution. -/
inductive TaskEffect
  | statusUpdate (status : String) (err : Option String)
  | enqueued (t : PRTask)
  | deadLettered (t : PRTask) (err : String)
deriving DecidableEq, Repr

/-- Outcomes of the collaborator calls of one execution: the initial
record creation and processing-status update, then the whole guarded body
(fetch, parse, stages, persist, deliver) collapsed to success or the first
escaping error. -/
structure TaskEnv where
  initRecord : Except String Unit
  body : Except String Unit
deriving Repr

/-- Control flow of Orchestrator.process_task.  A failure creating or
updating the initial review record is logged and the function returns with
no further effect.  Otherwise the processing status is recorded; a body
failure records the failed status and then either dead-letters the task at
the retry ceiling or increments the counter and re-enqueues. -/
def process_task (max_retries : Nat) (env : TaskEnv) (task : PRTask) : List TaskEffect :=
  match env.initRecord with
  | Except.error _ => []
  | Except.ok _ =>
    TaskEffect.statusUpdate "processing" none ::
    (match env.body with
     | Except.ok _ => [TaskEffect.statusUpdate "completed" none]
     | Except.error e =>
        TaskEffect.statusUpdate "failed" (some e) ::
        (if max_retries ≤ task.retry_count then [TaskEffect.deadLettered task e]
         else [TaskEffect.enqueued { task with retry_count := task.retry_count + 1 }]))

end Orchestrator

/-! Model of the analysis stages in backend/workers/agents.  Each analyze
wraps exactly one provider call inside a try block; the provider outcome is
passed in as an Except value, and the except branch of each agent builds
its degraded result.  Token accounting and elapsed time are not read by any
claim and are omitted from the record. -/

/-- The fields of AgentResult the claims read. -/
structure AgentResult where
  agent_name : String
  output : String
  error : Option String
deriving DecidableEq, Repr

/-- Python truthiness of the optional error field: absent and empty are
both falsy, so a result counts as errored only for a nonempty message. -/
def truthyNoError (r : AgentResult) : Bool :=
  match r.error with
  | none => true
  | some e => e = ""

/-- ScoutAgent.analyze: on success the response text, on failure the
original diff passed through unchanged with the error recorded. -/
def ScoutAgent.analyze (diff : String) (response : Except String String) : AgentResult :=
  match response with
  | Except.ok filtered => { agent_name := "scout", output := filtered, error := none }
  | Except.error e => { agent_name := "scout", output := diff, error := some e }

/-- GuardianAgent.analyze: on failure the fixed degraded string. -/
def GuardianAgent.analyze (diff : String) (response : Except String String) : AgentResult :=
  match response with
  | Except.ok analysis => { agent_name := "guardian", output := analysis, error := none }
  | Except.error e =>
      { agent_name := "guardian"
        output := "Security analysis failed. Please review manually."
        error := some e }

/-- ArchitectAgent.analyze: on failure the fixed degraded string. -/
def ArchitectAgent.analyze (diff : String) (response : Except String String) : AgentResult :=
  match response with
  | Except.ok analysis => { agent_name := "architect", output := analysis, error := none }
  | Except.error e =>
      { agent_name := "architect"
        output := "Architectural analysis failed. Please review manually."
        error := some e }

/-- StylistAgent.analyze: on failure the fixed degraded string. -/
def StylistAgent.analyze (diff : String) (response : Except String String) : AgentResult :=
  match response with
  | Except.ok analysis => { agent_name := "stylist", output := analysis, error := none }
  | Except.error e =>
      { agent_name := "stylist"
        output := "Style analysis failed. Please review manually."
        error := some e }

/-- SynthesizerAgent._create_fallback_comment: the header part followed by
one section per upstream result whose error field is falsy, joined with the
empty separator, in guardian, architect, stylist order.  The scout result
is accepted and ignored, as in the source. -/
def create_fallback_comment (scout_result guardian_result architect_result
    stylist_result : AgentResult) : String :=
  String.join
    (["## Code Review Summary\n\n"]
      ++ (if truthyNoError guardian_result then
            ["### Security Review\n", guardian_result.output, "\n\n"] else [])
      ++ (if truthyNoError architect_result then
            ["### Architecture Review\n", architect_result.output, "\n\n"] else [])
      ++ (if truthyNoError stylist_result then
            ["### Style Review\n", stylist_result.output, "\n\n"] else []))

/-- SynthesizerAgent.analyze: on success the response text; on failure the
deterministic fallback comment with the error recorded. -/
def SynthesizerAgent.analyze (scout_result guardian_result architect_result
    stylist_result : AgentResult) (response : Except String String) : AgentResult :=
  match response with
  | Except.ok text => { agent_name := "synthesizer", output := text, error := none }
  | Except.error e =>
      { agent_name := "synthesizer"
        output := create_fallback_comment scout_result guardian_result architect_result
          stylist_result
        error := some e }

/-! Derived predicates and concrete instances used by the statements that
follow. -/

namespace DiffParser

/-- Invariant of the in-progress file record: its counters equal the
hunk-header contribution plus the literal-line contribution of the
accumulated lines, the line list is nonempty, and no accumulated line
contains a newline. -/
def curInv (c : CurFile) : Prop :=
  c.added_lines = hunkAddedL c.lines + literalAddedL c.lines ∧
  c.removed_lines = hunkRemovedL c.lines + literalRemovedL c.lines ∧
  c.lines ≠ [] ∧ ∀ s ∈ c.lines, ('\n' : Char) ∉ s.data

/-- Reconciliation property of a finished file: its recorded counters
equal the independent re-scan of its reconstructed content, hunk-header
derived plus literal content lines. -/
def fileInv (f : DiffFile) : Prop :=
  f.added_lines = hunkAdded f.content + literalAdded f.content ∧
  f.removed_lines = hunkRemoved f.content + literalRemoved f.content

/-- Invariant of the whole parse state. -/
def stInv (st : ParseState) : Prop :=
  (∀ f ∈ st.files, fileInv f) ∧ ∀ c, st.current = some c → curInv c

/-- Running size of the current chunk, one newline charge per line. -/
def sizeL (ls : List String) : Nat := (ls.map (fun l => l.length + 1)).sum

/-- A one-hunk diff whose hunk header announces two added and one removed
line while the literal content holds one added and no removed line. -/
def c1Input : String := "diff --git a/f b/f\n@@ -1,1 +1,2 @@\n+x"

/-- The file record parse_diff produces for c1Input. -/
def c1File : DiffFile :=
  { old_path := "f", new_path := "f"
    content := "diff --git a/f b/f\n@@ -1,1 +1,2 @@\n+x"
    added_lines := 3, removed_lines := 1
    is_binary := false, is_deleted := false }

/-- A diff segment carrying a new-file-mode header line. -/
def c9Input : String :=
  "diff --git a/hello.py b/hello.py\nnew file mode 100644\nindex 0000000..e69de29"

end DiffParser

/-- Concrete errored guardian result used for the omission scenario. -/
def g0 : AgentResult :=
  { agent_name := "guardian", output := "GUARDIAN-FINDING", error := some "timeout" }

/-- Concrete successful architect result. -/
def a0 : AgentResult :=
  { agent_name := "architect", output := "ARCHITECT-FINDING", error := none }

/-- Concrete successful stylist result. -/
def s0 : AgentResult :=
  { agent_name := "stylist", output := "STYLIST-FINDING", error := none }

/-- Concrete scout result (ignored by the fallback). -/
def sc0 : AgentResult :=
  { agent_name := "scout", output := "diff", error := none }

/-- A concrete task. -/
def task0 : PRTask := { pr_metadata := { pr_id := 42, repository := "acme/widgets" }, retry_count := 0 }

/-- The same unit of work with its retry budget exhausted at ceiling 3. -/
def task3 : PRTask := { pr_metadata := { pr_id := 42, repository := "acme/widgets" }, retry_count := 3 }

/-- Collaborator outcomes where creating the initial review record fails
and everything afterwards would have succeeded. -/
def envInitFail : Orchestrator.TaskEnv :=
  { initRecord := Except.error "database unavailable", body := Except.ok () }

/-- An empty worker state. -/
def wst0 : Queue.WorkerState := { queue := [], dlq := [] }

/-- Concrete rate limiter at full capacity. -/
def rl0 : RateLimiter := { rate := 30, per := 60, tokens := 30, last_refill := 0 }

/-- A decoder that rejects every payload, standing for a queue entry whose
json cannot be parsed into a task. -/
def rejectAll : String → Option PRTask := fun _ => none

/-! Basic facts about the string utilities. -/

theorem isPrefixB_iff (p l : List Char) : isPrefixB p l = true ↔ ∃ t, l = p ++ t := by
  induction p generalizing l with
  | nil =>
      simp only [isPrefixB, List.nil_append, true_iff]
      exact ⟨l, rfl⟩
  | cons a as_ ih =>
      cases l with
      | nil => simp [isPrefixB]
      | cons b bs =>
          constructor
          · intro h
            have hab : a = b := by
              by_contra hne
              simp [isPrefixB, hne] at h
            subst hab
            have h2 : isPrefixB as_ bs = true := by simpa [isPrefixB] using h
            obtain ⟨t, rfl⟩ := (ih bs).mp h2
            exact ⟨t, rfl⟩
          · rintro ⟨t, ht⟩
            rw [List.cons_append] at ht
            injection ht with h1 h2
            subst h1
            have h3 : isPrefixB as_ bs = true := (ih bs).mpr ⟨t, h2⟩
            simpa [isPrefixB] using h3

theorem containsB_iff (pat l : List Char) :
    containsB pat l = true ↔ ∃ u v, l = u ++ (pat ++ v) := by
  induction l with
  | nil =>
      simp only [containsB, isPrefixB_iff]
      constructor
      · rintro ⟨t, ht⟩
        exact ⟨[], t, by simpa using ht⟩
      · rintro ⟨u, v, huv⟩
        rcases List.append_eq_nil.mp huv.symm with ⟨rfl, h2⟩
        exact ⟨v, by simpa using h2⟩
  | cons x xs ih =>
      simp only [containsB, Bool.or_eq_true, isPrefixB_iff, ih]
      constructor
      · rintro (⟨t, ht⟩ | ⟨u, v, rfl⟩)
        · exact ⟨[], t, by simpa using ht⟩
        · exact ⟨x :: u, v, rfl⟩
      · rintro ⟨u, v, huv⟩
        cases u with
        | nil =>
            exact Or.inl ⟨v, by simpa using huv⟩
        | cons y ys =>
            right
            injection huv with h1 h2
            exact ⟨ys, v, h2⟩

theorem containsS_of_parts (x y : String) (sub : String) :
    containsS (x ++ (sub ++ y)) sub = true := by
  rw [containsS, containsB_iff]
  exact ⟨x.data, y.data, by simp [String.data_append]⟩

theorem startsWithS_head {p s : String} {c : Char} {pr : List Char}
    (hp : p.data = c :: pr) (h : startsWithS p s = true) : ∃ t, s.data = c :: t := by
  rw [startsWithS, isPrefixB_iff] at h
  obtain ⟨t, ht⟩ := h
  rw [hp] at ht
  exact ⟨pr ++ t, by simpa using ht⟩

theorem startsWithS_false {p s : String} {c d : Char} {pr sr : List Char}
    (hp : p.data = c :: pr) (hs : s.data = d :: sr) (hcd : c ≠ d) :
    startsWithS p s = false := by
  rw [startsWithS, hp, hs]
  simp only [isPrefixB, if_neg hcd]

theorem splitCh_ne_nil (c : Char) (l : List Char) : splitCh c l ≠ [] := by
  induction l with
  | nil => simp [splitCh]
  | cons x xs ih =>
      by_cases hx : x = c
      · simp [splitCh, hx]
      · simp only [splitCh, if_neg hx]
        cases h : splitCh c xs with
        | nil => simp
        | cons a t => simp

theorem not_mem_of_mem_splitCh (c : Char) (l : List Char) :
    ∀ seg ∈ splitCh c l, c ∉ seg := by
  induction l with
  | nil =>
      intro seg hseg
      simp only [splitCh, List.mem_singleton] at hseg
      subst hseg; simp
  | cons x xs ih =>
      intro seg hseg
      by_cases hx : x = c
      · simp only [splitCh, if_pos hx, List.mem_cons] at hseg
        rcases hseg with rfl | hseg
        · simp
        · exact ih seg hseg
      · simp only [splitCh, if_neg hx] at hseg
        cases h : splitCh c xs with
        | nil => exact absurd h (splitCh_ne_nil c xs)
        | cons a t =>
            rw [h] at hseg
            simp only [List.mem_cons] at hseg
            rcases hseg with rfl | hseg
            · intro hmem
              rcases List.mem_cons.mp hmem with rfl | hmem
              · exact hx rfl
              · exact ih a (h ▸ List.mem_cons_self a t) hmem
            · exact ih seg (h ▸ List.mem_cons_of_mem a hseg)

theorem splitCh_no_sep (c : Char) (l : List Char) (h : c ∉ l) : splitCh c l = [l] := by
  induction l with
  | nil => simp [splitCh]
  | cons x xs ih =>
      have hx : x ≠ c := fun hxc => h (hxc ▸ List.mem_cons_self x xs)
      have hxs : c ∉ xs := fun hm => h (List.mem_cons_of_mem x hm)
      simp only [splitCh, if_neg hx, ih hxs]

theorem splitCh_sep_append (c : Char) (l₁ l₂ : List Char) (h : c ∉ l₁) :
    splitCh c (l₁ ++ c :: l₂) = l₁ :: splitCh c l₂ := by
  induction l₁ with
  | nil => simp [splitCh]
  | cons x xs ih =>
      have hx : x ≠ c := fun hxc => h (hxc ▸ List.mem_cons_self x xs)
      have hxs : c ∉ xs := fun hm => h (List.mem_cons_of_mem x hm)
      rw [List.cons_append]
      simp only [splitCh, if_neg hx]
      rw [ih hxs]

theorem splitCh_joinCh (c : Char) (L : List (List Char)) (hne : L ≠ [])
    (h : ∀ l ∈ L, c ∉ l) : splitCh c (joinCh c L) = L := by
  induction L with
  | nil => exact absurd rfl hne
  | cons l ls ih =>
      cases ls with
      | nil =>
          simp only [joinCh]
          exact splitCh_no_sep c l (h l (List.mem_cons_self l []))
      | cons l₂ ls₂ =>
          have hjoin : joinCh c (l :: l₂ :: ls₂) = l ++ c :: joinCh c (l₂ :: ls₂) := rfl
          rw [hjoin, splitCh_sep_append c l _ (h l (List.mem_cons_self l _)),
            ih (by simp) (fun x hx => h x (List.mem_cons_of_mem l hx))]

theorem string_mk_data (s : String) : String.mk s.data = s := rfl

theorem splitNl_ne_nil (s : String) : splitNl s ≠ [] := by
  intro h
  have := splitCh_ne_nil '\n' s.data
  simp only [splitNl, List.map_eq_nil] at h
  exact this h

theorem mem_splitNl_no_newline (s : String) :
    ∀ l ∈ splitNl s, ('\n' : Char) ∉ l.data := by
  intro l hl
  simp only [splitNl, List.mem_map] at hl
  obtain ⟨seg, hseg, rfl⟩ := hl
  exact not_mem_of_mem_splitCh '\n' s.data seg hseg

theorem splitNl_joinNl (L : List String) (hne : L ≠ [])
    (h : ∀ s ∈ L, ('\n' : Char) ∉ s.data) : splitNl (joinNl L) = L := by
  have hmapne : L.map String.data ≠ [] := by
    simpa [List.map_eq_nil] using hne
  have hsep : ∀ l ∈ L.map String.data, ('\n' : Char) ∉ l := by
    intro l hl
    simp only [List.mem_map] at hl
    obtain ⟨s, hs, rfl⟩ := hl
    exact h s hs
  have hsplit := splitCh_joinCh '\n' (L.map String.data) hmapne hsep
  simp only [splitNl, joinNl]
  rw [hsplit, List.map_map]
  have : (String.mk ∘ String.data) = id := by
    funext s
    simp [string_mk_data]
  rw [this, List.map_id]

theorem joinNl_singleton (s : String) : joinNl [s] = s := rfl

theorem joinCh_length (c : Char) (L : List (List Char)) (hne : L ≠ []) :
    (joinCh c L).length + 1 = (L.map (fun l => l.length + 1)).sum := by
  induction L with
  | nil => exact absurd rfl hne
  | cons l ls ih =>
      cases ls with
      | nil => simp [joinCh]
      | cons l₂ ls₂ =>
          have hjoin : joinCh c (l :: l₂ :: ls₂) = l ++ c :: joinCh c (l₂ :: ls₂) := rfl
          rw [hjoin]
          simp only [List.map_cons, List.sum_cons] at ih ⊢
          rw [← ih (by simp)]
          simp [List.length_append]
          ring

theorem joinNl_length (L : List String) (hne : L ≠ []) :
    (joinNl L).length + 1 = DiffParser.sizeL L := by
  have h := joinCh_length '\n' (L.map String.data) (by simpa [List.map_eq_nil] using hne)
  simp only [joinNl, DiffParser.sizeL, List.map_map] at h ⊢
  convert h using 2

namespace DiffParser

theorem literalAddedL_append (ls : List String) (l : String) :
    literalAddedL (ls ++ [l]) = literalAddedL ls + (if isLiteralAdded l then 1 else 0) := by
  simp only [literalAddedL, List.filter_append, List.length_append]
  congr 1
  by_cases h : isLiteralAdded l <;> simp [h]

theorem literalRemovedL_append (ls : List String) (l : String) :
    literalRemovedL (ls ++ [l]) = literalRemovedL ls + (if isLiteralRemoved l then 1 else 0) := by
  simp only [literalRemovedL, List.filter_append, List.length_append]
  congr 1
  by_cases h : isLiteralRemoved l <;> simp [h]

theorem hunkAddedL_append (ls : List String) (l : String) :
    hunkAddedL (ls ++ [l]) = hunkAddedL ls + hunkAddContrib l := by
  simp [hunkAddedL]

theorem hunkRemovedL_append (ls : List String) (l : String) :
    hunkRemovedL (ls ++ [l]) = hunkRemovedL ls + hunkRemoveContrib l := by
  simp [hunkRemovedL]

theorem sizeL_append (ls : List String) (l : String) :
    sizeL (ls ++ [l]) = sizeL ls + (l.length + 1) := by
  simp [sizeL]

end DiffParser

namespace DiffParser

theorem literalAddedL_singleton (l : String) :
    literalAddedL [l] = if isLiteralAdded l then 1 else 0 := by
  by_cases h : isLiteralAdded l <;> simp [literalAddedL, h]

theorem literalRemovedL_singleton (l : String) :
    literalRemovedL [l] = if isLiteralRemoved l then 1 else 0 := by
  by_cases h : isLiteralRemoved l <;> simp [literalRemovedL, h]

theorem hunkAddedL_singleton (l : String) : hunkAddedL [l] = hunkAddContrib l := by
  simp [hunkAddedL]

theorem hunkRemovedL_singleton (l : String) : hunkRemovedL [l] = hunkRemoveContrib l := by
  simp [hunkRemovedL]

theorem neutral_line_counts {line : String} {c : Char} {t : List Char}
    (hs : line.data = c :: t) (hplus : c ≠ '+') (hminus : c ≠ '-') (hat : c ≠ '@') :
    isLiteralAdded line = false ∧ isLiteralRemoved line = false ∧
    hunkAddContrib line = 0 ∧ hunkRemoveContrib line = 0 := by
  have h1 : startsWithS "+" line = false :=
    @startsWithS_false "+" line '+' c [] t (by decide) hs (Ne.symm hplus)
  have h2 : startsWithS "-" line = false :=
    @startsWithS_false "-" line '-' c [] t (by decide) hs (Ne.symm hminus)
  have h3 : startsWithS "@@" line = false :=
    @startsWithS_false "@@" line '@' c ['@'] t (by decide) hs (Ne.symm hat)
  exact ⟨by simp [isLiteralAdded, h1], by simp [isLiteralRemoved, h2],
    by simp [hunkAddContrib, h3], by simp [hunkRemoveContrib, h3]⟩

theorem curInv_step {c c' : CurFile} {line : String} (h : curInv c)
    (hline : ('\n' : Char) ∉ line.data)
    (hl : c'.lines = c.lines ++ [line])
    (ha : c'.added_lines = c.added_lines + hunkAddContrib line +
      (if isLiteralAdded line then 1 else 0))
    (hr : c'.removed_lines = c.removed_lines + hunkRemoveContrib line +
      (if isLiteralRemoved line then 1 else 0)) :
    curInv c' := by
  obtain ⟨h1, h2, h3, h4⟩ := h
  refine ⟨?_, ?_, by simp [hl], ?_⟩
  · rw [ha, hl, hunkAddedL_append, literalAddedL_append, h1]; ring
  · rw [hr, hl, hunkRemovedL_append, literalRemovedL_append, h2]; ring
  · intro s hs
    rw [hl] at hs
    rcases List.mem_append.mp hs with hs | hs
    · exact h4 s hs
    · rw [List.mem_singleton] at hs
      subst hs
      exact hline

theorem curInv_initCur {op np line : String} {c : Char} {t : List Char}
    (hs : line.data = c :: t) (hplus : c ≠ '+') (hminus : c ≠ '-') (hat : c ≠ '@')
    (hline : ('\n' : Char) ∉ line.data) : curInv (initCur op np line) := by
  obtain ⟨ha, hr, hca, hcr⟩ := neutral_line_counts hs hplus hminus hat
  refine ⟨?_, ?_, by simp [initCur], ?_⟩
  · show (0 : Nat) = hunkAddedL [line] + literalAddedL [line]
    rw [hunkAddedL_singleton, literalAddedL_singleton, ha, hca]
    simp
  · show (0 : Nat) = hunkRemovedL [line] + literalRemovedL [line]
    rw [hunkRemovedL_singleton, literalRemovedL_singleton, hr, hcr]
    simp
  · intro s hs2
    have : s = line := by simpa [initCur] using hs2
    subst this
    exact hline

theorem fileInv_toDiffFile {c : CurFile} (h : curInv c) : fileInv c.toDiffFile := by
  obtain ⟨h1, h2, h3, h4⟩ := h
  have hsplit : splitNl (joinNl c.lines) = c.lines := splitNl_joinNl c.lines h3 h4
  constructor
  · show c.added_lines = hunkAdded (joinNl c.lines) + literalAdded (joinNl c.lines)
    rw [hunkAdded, literalAdded, hsplit]
    exact h1
  · show c.removed_lines = hunkRemoved (joinNl c.lines) + literalRemoved (joinNl c.lines)
    rw [hunkRemoved, literalRemoved, hsplit]
    exact h2

theorem mem_flushCur {files : List DiffFile} {cur : CurFile} {f : DiffFile}
    (hf : f ∈ flushCur files cur) : f ∈ files ∨ f = cur.toDiffFile := by
  rcases List.mem_append.mp hf with hf | hf
  · exact Or.inl hf
  · exact Or.inr (List.eq_of_mem_replicate hf)

theorem parseStep_inv {files : List DiffFile} {curO : Option CurFile} {line : String}
    (hfiles : ∀ f ∈ files, fileInv f) (hcur : ∀ c, curO = some c → curInv c)
    (hline : ('\n' : Char) ∉ line.data) :
    stInv (parseStep ⟨files, curO⟩ line) := by
  by_cases h1 : startsWithS "diff --git" line = true
  · obtain ⟨t, hhead⟩ :=
      @startsWithS_head "diff --git" line 'd' ("iff --git".data) (by decide) h1
    cases curO with
    | none =>
        cases hmg : matchDiffGit line.data with
        | none =>
            simp only [parseStep, h1, if_true, hmg]
            exact ⟨hfiles, fun c hc => Option.noConfusion hc⟩
        | some p =>
            obtain ⟨op, np⟩ := p
            simp only [parseStep, h1, if_true, hmg]
            refine ⟨hfiles, ?_⟩
            intro c hc
            injection hc with hc
            subst hc
            exact curInv_initCur hhead (by decide) (by decide) (by decide) hline
    | some cur =>
        cases hmg : matchDiffGit line.data with
        | none =>
            simp only [parseStep, h1, if_true, hmg]
            refine ⟨hfiles, ?_⟩
            intro c hc
            injection hc with hc
            subst hc
            exact hcur cur rfl
        | some p =>
            obtain ⟨op, np⟩ := p
            simp only [parseStep, h1, if_true, hmg]
            constructor
            · intro f hf
              rcases mem_flushCur hf with hf | rfl
              · exact hfiles f hf
              · exact fileInv_toDiffFile (hcur cur rfl)
            · intro c hc
              injection hc with hc
              subst hc
              exact curInv_initCur hhead (by decide) (by decide) (by decide) hline
  · have h1f : startsWithS "diff --git" line = false := Bool.eq_false_iff.mpr h1
    by_cases h2 : startsWithS "index " line = true
    · cases curO with
      | none =>
          simp only [parseStep, h1f, h2, if_true, Bool.false_eq_true, if_false]
          exact ⟨hfiles, fun c hc => Option.noConfusion hc⟩
      | some cur =>
          obtain ⟨t, hhead⟩ := @startsWithS_head "index " line 'i' ("ndex ".data) (by decide) h2
          obtain ⟨hA, hR, hCA, hCR⟩ :=
            neutral_line_counts hhead (by decide) (by decide) (by decide)
          simp only [parseStep, h1f, h2, if_true, Bool.false_eq_true, if_false]
          refine ⟨hfiles, ?_⟩
          intro c hc
          injection hc with hc
          subst hc
          exact curInv_step (hcur cur rfl) hline rfl (by simp [hA, hCA]) (by simp [hR, hCR])
    · have h2f : startsWithS "index " line = false := Bool.eq_false_iff.mpr h2
      by_cases h3 : startsWithS "Binary files" line = true
      · cases curO with
        | none =>
            simp only [parseStep, h1f, h2f, h3, if_true, Bool.false_eq_true, if_false]
            exact ⟨hfiles, fun c hc => Option.noConfusion hc⟩
        | some cur =>
            obtain ⟨t, hhead⟩ :=
              @startsWithS_head "Binary files" line 'B' ("inary files".data) (by decide) h3
            obtain ⟨hA, hR, hCA, hCR⟩ :=
              neutral_line_counts hhead (by decide) (by decide) (by decide)
            simp only [parseStep, h1f, h2f, h3, if_true, Bool.false_eq_true, if_false]
            refine ⟨hfiles, ?_⟩
            intro c hc
            injection hc with hc
            subst hc
            exact curInv_step (hcur cur rfl) hline rfl (by simp [hA, hCA]) (by simp [hR, hCR])
      · have h3f : startsWithS "Binary files" line = false := Bool.eq_false_iff.mpr h3
        by_cases h4 : startsWithS "new file mode" line = true
        · cases curO with
          | none =>
              simp only [parseStep, h1f, h2f, h3f, h4, if_true, Bool.false_eq_true, if_false]
              exact ⟨hfiles, fun c hc => Option.noConfusion hc⟩
          | some cur =>
              obtain ⟨t, hhead⟩ :=
                @startsWithS_head "new file mode" line 'n' ("ew file mode".data) (by decide) h4
              obtain ⟨hA, hR, hCA, hCR⟩ :=
                neutral_line_counts hhead (by decide) (by decide) (by decide)
              simp only [parseStep, h1f, h2f, h3f, h4, if_true, Bool.false_eq_true, if_false]
              refine ⟨hfiles, ?_⟩
              intro c hc
              injection hc with hc
              subst hc
              exact curInv_step (hcur cur rfl) hline rfl (by simp [hA, hCA]) (by simp [hR, hCR])
        · have h4f : startsWithS "new file mode" line = false := Bool.eq_false_iff.mpr h4
          by_cases h5 : startsWithS "deleted file mode" line = true
          · cases curO with
            | none =>
                simp only [parseStep, h1f, h2f, h3f, h4f, h5, if_true, Bool.false_eq_true,
                  if_false]
                exact ⟨hfiles, fun c hc => Option.noConfusion hc⟩
            | some cur =>
                obtain ⟨t, hhead⟩ :=
                  @startsWithS_head "deleted file mode" line 'd' ("eleted file mode".data)
                    (by decide) h5
                obtain ⟨hA, hR, hCA, hCR⟩ :=
                  neutral_line_counts hhead (by decide) (by decide) (by decide)
                simp only [parseStep, h1f, h2f, h3f, h4f, h5, if_true, Bool.false_eq_true,
                  if_false]
                refine ⟨hfiles, ?_⟩
                intro c hc
                injection hc with hc
                subst hc
                exact curInv_step (hcur cur rfl) hline rfl (by simp [hA, hCA])
                  (by simp [hR, hCR])
          · have h5f : startsWithS "deleted file mode" line = false := Bool.eq_false_iff.mpr h5
            by_cases h6 : startsWithS "@@" line = true
            · cases curO with
              | none =>
                  simp only [parseStep, h1f, h2f, h3f, h4f, h5f, h6, if_true,
                    Bool.false_eq_true, if_false]
                  exact ⟨hfiles, fun c hc => Option.noConfusion hc⟩
              | some cur =>
                  obtain ⟨t, hhead⟩ :=
                    @startsWithS_head "@@" line '@' ['@'] (by decide) h6
                  have hA : isLiteralAdded line = false := by
                    simp [isLiteralAdded,
                      @startsWithS_false "+" line '+' '@' [] t (by decide) hhead (by decide)]
                  have hR : isLiteralRemoved line = false := by
                    simp [isLiteralRemoved,
                      @startsWithS_false "-" line '-' '@' [] t (by decide) hhead (by decide)]
                  cases hm : matchHunk line.data with
                  | none =>
                      simp only [parseStep, h1f, h2f, h3f, h4f, h5f, h6, if_true,
                        Bool.false_eq_true, if_false, hm]
                      refine ⟨hfiles, ?_⟩
                      intro c hc
                      injection hc with hc
                      subst hc
                      exact curInv_step (hcur cur rfl) hline rfl
                        (by simp [hA, hunkAddContrib, h6, hm])
                        (by simp [hR, hunkRemoveContrib, h6, hm])
                  | some p =>
                      obtain ⟨removed, added⟩ := p
                      simp only [parseStep, h1f, h2f, h3f, h4f, h5f, h6, if_true,
                        Bool.false_eq_true, if_false, hm]
                      refine ⟨hfiles, ?_⟩
                      intro c hc
                      injection hc with hc
                      subst hc
                      exact curInv_step (hcur cur rfl) hline rfl
                        (by simp [hA, hunkAddContrib, h6, hm])
                        (by simp [hR, hunkRemoveContrib, h6, hm])
            · have h6f : startsWithS "@@" line = false := Bool.eq_false_iff.mpr h6
              cases curO with
              | none =>
                  simp only [parseStep, h1f, h2f, h3f, h4f, h5f, h6f, Bool.false_eq_true,
                    if_false]
                  exact ⟨hfiles, fun c hc => Option.noConfusion hc⟩
              | some cur =>
                  by_cases hA : (startsWithS "+" line && !startsWithS "+++" line) = true
                  · have hA' : isLiteralAdded line = true := hA
                    have hplus : startsWithS "+" line = true := (Bool.and_eq_true _ _ |>.mp hA).1
                    obtain ⟨t, hhead⟩ := @startsWithS_head "+" line '+' [] (by decide) hplus
                    have hR : isLiteralRemoved line = false := by
                      simp [isLiteralRemoved,
                        @startsWithS_false "-" line '-' '+' [] t (by decide) hhead (by decide)]
                    simp only [parseStep, h1f, h2f, h3f, h4f, h5f, h6f, Bool.false_eq_true,
                      if_false, hA, if_true]
                    refine ⟨hfiles, ?_⟩
                    intro c hc
                    injection hc with hc
                    subst hc
                    exact curInv_step (hcur cur rfl) hline rfl
                      (by simp [hA', hunkAddContrib, h6f])
                      (by simp [hR, hunkRemoveContrib, h6f])
                  · have hAf : (startsWithS "+" line && !startsWithS "+++" line) = false :=
                      Bool.eq_false_iff.mpr hA
                    have hA' : isLiteralAdded line = false := hAf
                    by_cases hB : (startsWithS "-" line && !startsWithS "---" line) = true
                    · have hB' : isLiteralRemoved line = true := hB
                      simp only [parseStep, h1f, h2f, h3f, h4f, h5f, h6f, Bool.false_eq_true,
                        if_false, hAf, hB, if_true]
                      refine ⟨hfiles, ?_⟩
                      intro c hc
                      injection hc with hc
                      subst hc
                      exact curInv_step (hcur cur rfl) hline rfl
                        (by simp [hA', hunkAddContrib, h6f])
                        (by simp [hB', hunkRemoveContrib, h6f])
                    · have hBf : (startsWithS "-" line && !startsWithS "---" line) = false :=
                        Bool.eq_false_iff.mpr hB
                      have hB' : isLiteralRemoved line = false := hBf
                      simp only [parseStep, h1f, h2f, h3f, h4f, h5f, h6f, Bool.false_eq_true,
                        if_false, hAf, hBf]
                      refine ⟨hfiles, ?_⟩
                      intro c hc
                      injection hc with hc
                      subst hc
                      exact curInv_step (hcur cur rfl) hline rfl
                        (by simp [hA', hunkAddContrib, h6f])
                        (by simp [hB', hunkRemoveContrib, h6f])

theorem foldl_parseStep_inv (lines : List String) :
    ∀ st : ParseState, stInv st → (∀ l ∈ lines, ('\n' : Char) ∉ l.data) →
    stInv (lines.foldl parseStep st) := by
  induction lines with
  | nil => intro st h _; exact h
  | cons l ls ih =>
      intro st h hl
      have h1 : stInv (parseStep st l) := by
        obtain ⟨fs, curO⟩ := st
        exact parseStep_inv h.1 h.2 (hl l (List.mem_cons_self l ls))
      exact ih _ h1 (fun x hx => hl x (List.mem_cons_of_mem l hx))

theorem parse_diff_inv (s : String) : ∀ f ∈ parse_diff s, fileInv f := by
  intro f hf
  by_cases hs : s = ""
  · rw [parse_diff, if_pos hs] at hf
    cases hf
  · have hinv := foldl_parseStep_inv (splitNl s) ⟨[], none⟩
      ⟨fun g hg => absurd hg (List.not_mem_nil g), fun c hc => Option.noConfusion hc⟩
      (mem_splitNl_no_newline s)
    have hunfold : parse_diff s =
        match ((splitNl s).foldl parseStep ⟨[], none⟩).current with
        | some cur => flushCur ((splitNl s).foldl parseStep ⟨[], none⟩).files cur
        | none => ((splitNl s).foldl parseStep ⟨[], none⟩).files := by
      rw [parse_diff, if_neg hs]
    rw [hunfold] at hf
    revert hf
    cases hc : ((splitNl s).foldl parseStep ⟨[], none⟩).current with
    | none =>
        intro hf
        exact hinv.1 f hf
    | some cur =>
        intro hf
        rcases mem_flushCur hf with hmem | rfl
        · exact hinv.1 f hmem
        · exact fileInv_toDiffFile (hinv.2 cur hc)

end DiffParser

namespace DiffParser

theorem chunkLoop_join (m : Nat) (ls : List String) :
    ∀ cur size, (∀ s ∈ cur, ('\n' : Char) ∉ s.data) → (∀ s ∈ ls, ('\n' : Char) ∉ s.data) →
    ((chunkLoop m ls cur size).map splitNl).join = cur ++ ls := by
  induction ls with
  | nil =>
      intro cur size hcur _
      by_cases hc : cur.isEmpty = true
      · have hnil : cur = [] := by simpa using hc
        subst hnil
        simp [chunkLoop]
      · have hne : cur ≠ [] := by simpa using hc
        simp only [chunkLoop, hc, if_false, Bool.false_eq_true]
        simp [splitNl_joinNl cur hne hcur]
  | cons l ls ih =>
      intro cur size hcur hls
      have hl : ('\n' : Char) ∉ l.data := hls l (List.mem_cons_self l ls)
      have hls2 : ∀ s ∈ ls, ('\n' : Char) ∉ s.data :=
        fun s hs => hls s (List.mem_cons_of_mem l hs)
      simp only [chunkLoop]
      by_cases hcond : (decide (size + (l.length + 1) > m) && !cur.isEmpty) = true
      · have hne : cur ≠ [] := by
          have := (Bool.and_eq_true _ _).mp hcond |>.2
          simpa using this
        simp only [hcond, if_true]
        rw [List.map_cons]
        show splitNl (joinNl cur) ++
            (List.map splitNl (chunkLoop m ls [l] (l.length + 1))).join = cur ++ l :: ls
        rw [ih [l] (l.length + 1) (by simpa using hl) hls2, splitNl_joinNl cur hne hcur]
        simp
      · simp only [hcond, Bool.false_eq_true, if_false]
        rw [ih (cur ++ [l]) (size + (l.length + 1)) ?hmem hls2]
        · simp
        case hmem =>
          intro s hs
          rcases List.mem_append.mp hs with hs | hs
          · exact hcur s hs
          · rw [List.mem_singleton] at hs
            subst hs
            exact hl

theorem chunkLoop_bound (m : Nat) (L0 : List String) (ls : List String) :
    ∀ cur size, size = sizeL cur →
    (∀ s ∈ cur, s ∈ L0) →
    (∀ s ∈ ls, s ∈ L0) →
    (cur = [] ∨ sizeL cur ≤ m ∨ ∃ l, cur = [l]) →
    ∀ c ∈ chunkLoop m ls cur size, c.length ≤ m ∨ c ∈ L0 := by
  have emit : ∀ cur : List String, cur ≠ [] →
      (∀ s ∈ cur, s ∈ L0) →
      (cur = [] ∨ sizeL cur ≤ m ∨ ∃ l, cur = [l]) →
      (joinNl cur).length ≤ m ∨ joinNl cur ∈ L0 := by
    intro cur hne hmem hdisj
    rcases hdisj with rfl | hsz | ⟨l, rfl⟩
    · exact absurd rfl hne
    · left
      have := joinNl_length cur hne
      omega
    · right
      rw [joinNl_singleton]
      exact hmem l (List.mem_singleton_self l)
  induction ls with
  | nil =>
      intro cur size _ hmem _ hdisj c hc
      by_cases he : cur.isEmpty = true
      · simp only [chunkLoop, he, if_true] at hc
        cases hc
      · have hne : cur ≠ [] := by simpa using he
        simp only [chunkLoop, he, Bool.false_eq_true, if_false, List.mem_singleton] at hc
        subst hc
        exact emit cur hne hmem hdisj
  | cons l ls ih =>
      intro cur size hsize hmem hls hdisj c hc
      have hlmem : l ∈ L0 := hls l (List.mem_cons_self l ls)
      have hls2 : ∀ s ∈ ls, s ∈ L0 := fun s hs => hls s (List.mem_cons_of_mem l hs)
      simp only [chunkLoop] at hc
      by_cases hcond : (decide (size + (l.length + 1) > m) && !cur.isEmpty) = true
      · have hne : cur ≠ [] := by
          have := (Bool.and_eq_true _ _).mp hcond |>.2
          simpa using this
        rw [hcond, if_pos rfl] at hc
        rcases List.mem_cons.mp hc with rfl | hc
        · exact emit cur hne hmem hdisj
        · refine ih [l] (l.length + 1) ?_ ?_ hls2 ?_ c hc
          · simp [sizeL]
          · intro s hs
            rw [List.mem_singleton] at hs
            subst hs
            exact hlmem
          · exact Or.inr (Or.inr ⟨l, rfl⟩)
      · rw [Bool.eq_false_iff.mpr hcond] at hc
        simp only [Bool.false_eq_true, if_false] at hc
        refine ih (cur ++ [l]) (size + (l.length + 1)) ?_ ?_ hls2 ?_ c hc
        · rw [hsize, sizeL_append]
        · intro s hs
          rcases List.mem_append.mp hs with hs | hs
          · exact hmem s hs
          · rw [List.mem_singleton] at hs
            subst hs
            exact hlmem
        · have hor : (decide (size + (l.length + 1) > m)) = false ∨ (!cur.isEmpty) = false := by
            rcases Bool.and_eq_false_iff.mp (Bool.eq_false_iff.mpr hcond) with h | h
            · exact Or.inl h
            · exact Or.inr h
          rcases hor with h | h
          · right; left
            rw [sizeL_append, ← hsize]
            have : ¬(size + (l.length + 1) > m) := by simpa using h
            omega
          · have hnil : cur = [] := by simpa using h
            subst hnil
            exact Or.inr (Or.inr ⟨l, by simp⟩)

end DiffParser

namespace DiffParser

/-- C1 (corrected): for every diff input and every file record produced by
parse_diff, the recorded added and removed counters equal the sum of the
hunk-header-derived counts and the literal plus and minus content-line
counts obtained by independently re-scanning the reconstructed content of
that file (both counters are Nat, hence non-negative).  The literal
re-scan alone does not reproduce the counters, because the loop adds the
hunk-header counts and the literal counts into the same accumulator. -/
theorem parse_counts_reconcile (s : String) (f : DiffFile) (hf : f ∈ parse_diff s) :
    f.added_lines = hunkAdded f.content + literalAdded f.content ∧
    f.removed_lines = hunkRemoved f.content + literalRemoved f.content :=
  parse_diff_inv s f hf

/-- Witness for C1 at the one-hunk diff c1Input. -/
theorem parse_counts_reconcile_witness :
    c1File.added_lines = hunkAdded c1File.content + literalAdded c1File.content ∧
    c1File.removed_lines = hunkRemoved c1File.content + literalRemoved c1File.content :=
  parse_counts_reconcile c1Input c1File (by decide)

/-- C1 counterexample to the claim as stated: on c1Input the parsed added
count is 3 and the removed count is 1, while the literal re-scan of the
reconstructed content yields 1 added and 0 removed. -/
theorem parse_counts_literal_cex :
    parse_diff c1Input = [c1File] ∧
    c1File.added_lines = 3 ∧ literalAdded c1File.content = 1 ∧
    c1File.removed_lines = 1 ∧ literalRemoved c1File.content = 0 ∧
    ¬(c1File.added_lines = literalAdded c1File.content) := by decide

/-- C7 (corrected): every chunk either fits within max_size or is a single
whole input line (which can exceed max_size, since a first line is always
placed into the current chunk unconditionally); and no line is ever split:
concatenating the line lists of the chunks gives exactly the line list of
the input. -/
theorem chunk_respects_lines (content : String) (max_size : Nat) :
    (∀ c ∈ chunk_large_file content max_size, c.length ≤ max_size ∨ c ∈ splitNl content) ∧
    ((chunk_large_file content max_size).map splitNl).join = splitNl content := by
  constructor
  · intro c hc
    rw [chunk_large_file] at hc
    by_cases hle : content.length ≤ max_size
    · rw [if_pos hle, List.mem_singleton] at hc
      subst hc
      exact Or.inl hle
    · rw [if_neg hle] at hc
      exact chunkLoop_bound max_size (splitNl content) (splitNl content) [] 0
        (by simp [sizeL]) (by simp) (fun s hs => hs) (Or.inl rfl) c hc
  · rw [chunk_large_file]
    by_cases hle : content.length ≤ max_size
    · rw [if_pos hle]
      simp
    · rw [if_neg hle]
      rw [chunkLoop_join max_size (splitNl content) [] 0 (by simp)
        (mem_splitNl_no_newline content)]
      simp

/-- Witness for C7: a two-line input chunked at size 2 splits between the
lines and round-trips, and its first chunk is a whole input line. -/
theorem chunk_respects_lines_witness :
    ("abc".length ≤ 2 ∨ "abc" ∈ splitNl "abc\nd") ∧
    ((chunk_large_file "abc\nd" 2).map splitNl).join = splitNl "abc\nd" :=
  ⟨(chunk_respects_lines "abc\nd" 2).1 "abc" (by decide),
   (chunk_respects_lines "abc\nd" 2).2⟩

/-- C7 counterexample to the claim as stated: with the positive bound 1,
the single-line input of length 2 comes back as one chunk of length 2,
exceeding the bound. -/
theorem chunk_oversize_cex :
    chunk_large_file "ab" 1 = ["ab"] ∧ ¬("ab".length ≤ 1) := by decide

/-- C8: filter_noise keeps exactly the records whose effective path does
not match the case-insensitive denylist, preserves the relative order of
the survivors (its output is a sublist of its input), and is idempotent. -/
theorem filter_noise_correct (files : List DiffFile) :
    filter_noise (filter_noise files) = filter_noise files ∧
    (filter_noise files).Sublist files ∧
    (∀ f, f ∈ filter_noise files ↔ f ∈ files ∧ is_noise_file (effectivePath f) = false) := by
  refine ⟨?_, List.filter_sublist files, ?_⟩
  · simp [filter_noise, List.filter_filter]
  · intro f
    simp [filter_noise, List.mem_filter]

/-- Witness for C8: idempotence at a concrete two-record list where the
second record is lockfile noise. -/
theorem filter_noise_correct_witness :
    filter_noise (filter_noise
      [⟨"a.py", "a.py", "", 0, 0, false, false⟩,
       ⟨"yarn.lock", "yarn.lock", "", 0, 0, false, false⟩]) =
    filter_noise
      [⟨"a.py", "a.py", "", 0, 0, false, false⟩,
       ⟨"yarn.lock", "yarn.lock", "", 0, 0, false, false⟩] :=
  (filter_noise_correct _).1

/-- C9 (code bug evidence): parsing a segment that carries a new-file-mode
header line yields a record with no new-file marking (only the binary and
deleted flags exist and both are false, and old_path is populated), so
get_file_summary reports the file as modified, not as new. -/
theorem new_file_summary_modified :
    parse_diff c9Input = [⟨"hello.py", "hello.py",
      "diff --git a/hello.py b/hello.py\nnew file mode 100644\nindex 0000000..e69de29",
      0, 0, false, false⟩] ∧
    get_file_summary (parse_diff c9Input) = "modified: hello.py (+0/-0)" := by decide

end DiffParser

theorem RateLimiter.refill_props (s : RateLimiter) (now : ℚ) :
    (s.refill now).rate = s.rate ∧ (s.tokens ≤ s.rate → (s.refill now).tokens ≤ s.rate) := by
  simp only [RateLimiter.refill]
  split
  · exact ⟨rfl, fun _ => min_le_left _ _⟩
  · exact ⟨rfl, fun h => h⟩

theorem RateLimiter.acquire_props (s : RateLimiter) (now : ℚ) :
    (s.acquire now).2.rate = s.rate ∧
    (s.tokens ≤ s.rate → (s.acquire now).2.tokens ≤ s.rate) ∧
    ((s.acquire now).1 = true → 0 < (s.refill now).tokens) := by
  have href := RateLimiter.refill_props s now
  simp only [RateLimiter.acquire]
  by_cases hc : 0 < (s.refill now).tokens
  · rw [if_pos hc]
    refine ⟨href.1, fun h => ?_, fun _ => hc⟩
    have h2 := href.2 h
    show (s.refill now).tokens - 1 ≤ s.rate
    omega
  · rw [if_neg hc]
    exact ⟨href.1, href.2, fun habs => Bool.noConfusion habs⟩

theorem RateLimiter.runAcquires_bounded (ts : List ℚ) :
    ∀ st : RateLimiter, st.tokens ≤ st.rate → ∀ s ∈ st.runAcquires ts, s.tokens ≤ s.rate := by
  induction ts with
  | nil =>
      intro st _ s hs
      cases hs
  | cons t ts ih =>
      intro st h s hs
      have hstep := RateLimiter.acquire_props st t
      have h1 : (st.acquire t).2.tokens ≤ (st.acquire t).2.rate := by
        rw [hstep.1]
        exact hstep.2.1 h
      simp only [RateLimiter.runAcquires] at hs
      rcases List.mem_cons.mp hs with rfl | hs
      · exact h1
      · exact ih _ h1 s hs

/-- C5: along any sequence of acquire calls at arbitrary times, starting
from any state with at most capacity tokens, every reached state still has
at most capacity tokens (token counts are Nat, hence non-negative); every
single refill from such a state stays at or below capacity; and acquire
returns success only when the post-refill token count at the moment of the
check is positive. -/
theorem RateLimiter.tokens_bounded (st : RateLimiter) (ts : List ℚ) (h : st.tokens ≤ st.rate) :
    (∀ s ∈ st.runAcquires ts, s.tokens ≤ s.rate) ∧
    (∀ (s : RateLimiter) (now : ℚ), s.tokens ≤ s.rate → (s.refill now).tokens ≤ s.rate) ∧
    (∀ (s : RateLimiter) (now : ℚ), (s.acquire now).1 = true → 0 < (s.refill now).tokens) :=
  ⟨RateLimiter.runAcquires_bounded ts st h,
   fun s now hs => (RateLimiter.refill_props s now).2 hs,
   fun s now => (RateLimiter.acquire_props s now).2.2⟩

/-- Witness for C5: one concrete refill from the full bucket stays within
capacity. -/
theorem RateLimiter.tokens_bounded_witness :
    (rl0.refill 30).tokens ≤ rl0.rate :=
  (RateLimiter.tokens_bounded rl0 [] (by decide)).2.1 rl0 30 (by decide)

namespace Orchestrator

/-- C2: on an unhandled failure, a task at or above the retry ceiling is
appended to the dead-letter store exactly once (with the error text and
timestamp) and the primary queue is left untouched; below the ceiling the
retry counter is incremented by one, the slept backoff equals base delay
times the new counter, the task is re-enqueued at the tail of the primary
queue, and the dead-letter store is left untouched. -/
theorem retry_policy_correct (max_retries retry_delay : Nat) (task : PRTask) (err : String)
    (now : Nat) (st : Queue.WorkerState) :
    (max_retries ≤ task.retry_count →
      (handle_task_failure max_retries retry_delay task err now st).state.dlq =
        st.dlq ++ [{ task := task, error := err, failed_at := now }] ∧
      (handle_task_failure max_retries retry_delay task err now st).state.queue = st.queue) ∧
    (task.retry_count < max_retries →
      (handle_task_failure max_retries retry_delay task err now st).state.queue =
        st.queue ++ [{ task with retry_count := task.retry_count + 1 }] ∧
      (handle_task_failure max_retries retry_delay task err now st).state.dlq = st.dlq ∧
      (handle_task_failure max_retries retry_delay task err now st).delay =
        retry_delay * (task.retry_count + 1)) := by
  constructor
  · intro h
    simp [handle_task_failure, h, Queue.enqueue_dlq]
  · intro h
    have h2 : ¬max_retries ≤ task.retry_count := by omega
    simp [handle_task_failure, h2, Queue.enqueue]

/-- Witness for C2 at the exhausted task task3 with ceiling 3. -/
theorem retry_policy_correct_witness :
    (handle_task_failure 3 5 task3 "fetch failed" 100 wst0).state.dlq =
      wst0.dlq ++ [{ task := task3, error := "fetch failed", failed_at := 100 }] ∧
    (handle_task_failure 3 5 task3 "fetch failed" 100 wst0).state.queue = wst0.queue :=
  (retry_policy_correct 3 5 task3 "fetch failed" 100 wst0).1 (by decide)

/-- C3 (corrected): once the initial review record has been created, a
task-level error escaping the guarded body always produces a failed
status update together with either a re-enqueue or a dead-letter entry.
The correction: a failure while creating or updating the initial status
record itself is only logged and the task is dropped with no status
update, re-enqueue or dead-letter entry. -/
theorem task_failure_reported (max_retries : Nat) (env : TaskEnv) (task : PRTask)
    (e : String) (hinit : env.initRecord = Except.ok ()) (hbody : env.body = Except.error e) :
    TaskEffect.statusUpdate "failed" (some e) ∈ process_task max_retries env task ∧
    ((∃ t, TaskEffect.enqueued t ∈ process_task max_retries env task) ∨
      ∃ t err, TaskEffect.deadLettered t err ∈ process_task max_retries env task) := by
  obtain ⟨ir, bd⟩ := env
  simp only at hinit hbody
  subst hinit
  subst hbody
  simp only [process_task]
  by_cases h : max_retries ≤ task.retry_count
  · rw [if_pos h]
    exact ⟨by simp, Or.inr ⟨task, e, by simp⟩⟩
  · rw [if_neg h]
    exact ⟨by simp, Or.inl ⟨{ task with retry_count := task.retry_count + 1 }, by simp⟩⟩

/-- Witness for C3 at a concrete body failure. -/
theorem task_failure_reported_witness :
    TaskEffect.statusUpdate "failed" (some "boom") ∈
      process_task 3 { initRecord := Except.ok (), body := Except.error "boom" } task0 ∧
    ((∃ t, TaskEffect.enqueued t ∈
        process_task 3 { initRecord := Except.ok (), body := Except.error "boom" } task0) ∨
      ∃ t err, TaskEffect.deadLettered t err ∈
        process_task 3 { initRecord := Except.ok (), body := Except.error "boom" } task0) :=
  task_failure_reported 3 { initRecord := Except.ok (), body := Except.error "boom" }
    task0 "boom" rfl rfl

/-- C3 counterexample to the claim as stated: when creating the initial
review record fails, process_task produces no effect at all, so the
failure yields neither a status update nor a re-enqueue nor a dead-letter
entry. -/
theorem init_failure_silent_drop :
    envInitFail.initRecord = Except.error "database unavailable" ∧
    process_task 3 envInitFail task0 = [] :=
  ⟨rfl, rfl⟩

end Orchestrator

/-- C10: Queue.dequeue never raises past its boundary: popping an entry
whose payload does not decode into a task yields the same empty answer as
a pop timeout, the malformed entry is permanently removed from the primary
queue, and the dead-letter list is untouched in both cases. -/
theorem Queue.dequeue_malformed_dropped {α : Type} (decode : α → Option PRTask)
    (p : α) (rest : List α) (d : List String) (hd : decode p = none) :
    Queue.dequeue decode { main := p :: rest, dlq := d } =
      (none, { main := rest, dlq := d }) ∧
    Queue.dequeue decode ({ main := [], dlq := d } : Queue.RawQueueState α) =
      (none, { main := [], dlq := d }) := by
  constructor
  · simp [Queue.dequeue, hd]
  · simp [Queue.dequeue]

/-- Witness for C10 with a payload every decode attempt rejects. -/
theorem dequeue_malformed_dropped_witness :
    Queue.dequeue rejectAll { main := ["not json"], dlq := [] } =
      (none, { main := [], dlq := [] }) ∧
    Queue.dequeue rejectAll ({ main := [], dlq := [] } : Queue.RawQueueState String) =
      (none, { main := [], dlq := [] }) :=
  Queue.dequeue_malformed_dropped rejectAll "not json" [] [] rfl

/-- C4: every stage analyze is a total function of the provider outcome
(so it cannot raise outward), and on a failing provider call it returns a
result whose error field carries the failure and whose output is the
unmodified input diff for Scout and the stage-specific fixed string,
containing the words analysis failed and review manually, for Guardian,
Architect and Stylist. -/
theorem agents_never_raise (diff e : String) :
    (ScoutAgent.analyze diff (Except.error e)).error = some e ∧
    (ScoutAgent.analyze diff (Except.error e)).output = diff ∧
    (GuardianAgent.analyze diff (Except.error e)).error = some e ∧
    (GuardianAgent.analyze diff (Except.error e)).output =
      "Security analysis failed. Please review manually." ∧
    (ArchitectAgent.analyze diff (Except.error e)).error = some e ∧
    (ArchitectAgent.analyze diff (Except.error e)).output =
      "Architectural analysis failed. Please review manually." ∧
    (StylistAgent.analyze diff (Except.error e)).error = some e ∧
    (StylistAgent.analyze diff (Except.error e)).output =
      "Style analysis failed. Please review manually." ∧
    containsS (GuardianAgent.analyze diff (Except.error e)).output "analysis failed" = true ∧
    containsS (GuardianAgent.analyze diff (Except.error e)).output "review manually" = true ∧
    containsS (ArchitectAgent.analyze diff (Except.error e)).output "analysis failed" = true ∧
    containsS (ArchitectAgent.analyze diff (Except.error e)).output "review manually" = true ∧
    containsS (StylistAgent.analyze diff (Except.error e)).output "analysis failed" = true ∧
    containsS (StylistAgent.analyze diff (Except.error e)).output "review manually" = true := by
  refine ⟨rfl, rfl, rfl, rfl, rfl, rfl, rfl, rfl, ?_, ?_, ?_, ?_, ?_, ?_⟩
  · show containsS "Security analysis failed. Please review manually." "analysis failed" = true
    decide
  · show containsS "Security analysis failed. Please review manually." "review manually" = true
    decide
  · show containsS "Architectural analysis failed. Please review manually."
      "analysis failed" = true
    decide
  · show containsS "Architectural analysis failed. Please review manually."
      "review manually" = true
    decide
  · show containsS "Style analysis failed. Please review manually." "analysis failed" = true
    decide
  · show containsS "Style analysis failed. Please review manually." "review manually" = true
    decide

/-- C6: when the primary synthesis call fails, the fallback comment
contains the architect and stylist outputs whenever those stages carry no
error while guardian carries a nonempty one, and it is never the empty
string; at the concrete scenario with distinct outputs the guardian text
is absent from the produced comment while the architect and stylist texts
occur in it. -/
theorem synthesizer_fallback_merges (scout g a s : AgentResult) (e : String)
    (hg : g.error = some e) (hge : e ≠ "") (ha : a.error = none) (hs : s.error = none) :
    (containsS (create_fallback_comment scout g a s) a.output = true ∧
     containsS (create_fallback_comment scout g a s) s.output = true ∧
     create_fallback_comment scout g a s ≠ "") ∧
    (containsS (create_fallback_comment sc0 g0 a0 s0) g0.output = false ∧
     containsS (create_fallback_comment sc0 g0 a0 s0) a0.output = true ∧
     containsS (create_fallback_comment sc0 g0 a0 s0) s0.output = true) := by
  have hgf : truthyNoError g = false := by simp [truthyNoError, hg, hge]
  have haf : truthyNoError a = true := by simp [truthyNoError, ha]
  have hsf : truthyNoError s = true := by simp [truthyNoError, hs]
  have hdata : (create_fallback_comment scout g a s).data =
      "## Code Review Summary\n\n".data ++ ("### Architecture Review\n".data ++ (a.output.data ++
        ("\n\n".data ++ ("### Style Review\n".data ++ (s.output.data ++ "\n\n".data))))) := by
    simp [create_fallback_comment, hgf, haf, hsf, String.join, String.data_append,
      List.append_assoc]
  refine ⟨⟨?_, ?_, ?_⟩, by decide, by decide, by decide⟩
  · rw [containsS, containsB_iff]
    refine ⟨"## Code Review Summary\n\n".data ++ "### Architecture Review\n".data,
      "\n\n".data ++ ("### Style Review\n".data ++ (s.output.data ++ "\n\n".data)), ?_⟩
    rw [hdata]
    simp [List.append_assoc]
  · rw [containsS, containsB_iff]
    refine ⟨"## Code Review Summary\n\n".data ++ ("### Architecture Review\n".data ++
      (a.output.data ++ ("\n\n".data ++ "### Style Review\n".data))),
      "\n\n".data, ?_⟩
    rw [hdata]
    simp [List.append_assoc]
  · intro hemp
    have h0 : (create_fallback_comment scout g a s).data = [] := by
      rw [hemp]
    rw [hdata] at h0
    rcases List.append_eq_nil.mp h0 with ⟨hA, _⟩
    exact absurd hA (by decide)

/-- Witness for C6 at concrete stage results. -/
theorem synthesizer_fallback_merges_witness :
    containsS (create_fallback_comment sc0 g0 a0 s0) a0.output = true ∧
    containsS (create_fallback_comment sc0 g0 a0 s0) s0.output = true ∧
    create_fallback_comment sc0 g0 a0 s0 ≠ "" :=
  (synthesizer_fallback_merges sc0 g0 a0 s0 "timeout" rfl (by decide) rfl rfl).1
